import Mathlib

/-!
Verification development for the brokex hourly analyzer (`index.js`).

The program is embedded shallowly: JS numbers become exact rationals (`ℚ`),
JS `null`/`undefined` become `Option`, and the one place where the source
can produce a non-finite number that a caller observes (the `CCI` division)
is modelled explicitly with a `JVal` value that distinguishes `NaN` from a
finite number.  Stateful parts (the live price cache, the deferred outcome
check) become explicit state passing and an event trace.
-/

/-- JS `Number.prototype.toFixed(f)` followed by unary `+`: round to `f`
decimal places, ties toward the larger integer numerator. -/
def roundFixed (f : ℕ) (x : ℚ) : ℚ :=
  (⌊x * 10 ^ f + 1 / 2⌋ : ℤ) / 10 ^ f

/-- JS `Math.sign` on a rational. -/
def qsign (x : ℚ) : ℤ :=
  if 0 < x then 1 else if x < 0 then -1 else 0

/-- A JS number that may be non-finite: `nan` stands for the result of a
division by zero (the only source of non-finite values reachable in this
program with finite candle data). -/
inductive JVal where
  | nan : JVal
  | num : ℚ → JVal
deriving DecidableEq, Repr

/-- JS `Math.max(...list)` for a nonempty list. -/
def listMax (l : List ℚ) : ℚ := l.foldl max (l.headD 0)

/-- JS `Math.min(...list)` for a nonempty list. -/
def listMin (l : List ℚ) : ℚ := l.foldl min (l.headD 0)

/-- Source `SMA(arr, p)` from `index.js`: arithmetic mean of the last `p` elements,
`null` when the input is shorter than `p`. -/
def SMA (arr : List ℚ) (p : ℕ) : Option ℚ :=
  if arr.length < p then none
  else some (((arr.drop (arr.length - p)).foldl (· + ·) 0) / p)

/-- Source `EMA(arr, p)` from `index.js`: seed with the SMA of the first `p`
elements, then fold the EMA recurrence over the rest.  `null` below length
`p`.  Under the guard `SMA (arr.take p) p` is always `some`, so the
`getD 0` default is never taken. -/
def EMA (arr : List ℚ) (p : ℕ) : Option ℚ :=
  if arr.length < p then none
  else
    let k : ℚ := 2 / (p + 1)
    let seed := (SMA (arr.take p) p).getD 0
    some ((arr.drop p).foldl (fun e c => c * k + e * (1 - k)) seed)

/-- Source `stddev(arr, p)` from `index.js`: population standard deviation of the
last `p` elements.  `Math.sqrt` has no exact rational counterpart; the
embedding uses `Rat.sqrt` — no claim below depends on the returned value,
only on presence/absence. -/
def stddev (arr : List ℚ) (p : ℕ) : Option ℚ :=
  if arr.length < p then none
  else
    let slice := arr.drop (arr.length - p)
    let mean : ℚ := slice.foldl (· + ·) 0 / p
    let variance : ℚ := slice.foldl (fun a b => a + (b - mean) ^ 2) 0 / p
    some (Rat.sqrt variance)

/-- The consecutive differences `closes[i] - closes[i-1]` for `i ≥ 1`. -/
def jsDiffs (closes : List ℚ) : List ℚ :=
  List.zipWith (fun a b => a - b) closes.tail closes

/-- Seed gains of `RSI`: sum of the nonnegative differences among the first
`p` (the source adds `diff` when `diff >= 0`). -/
def rsiSeedGains (ds : List ℚ) : ℚ :=
  ds.foldl (fun a d => a + (if 0 ≤ d then d else 0)) 0

/-- Seed losses of `RSI`: sum of `-diff` over the negative differences. -/
def rsiSeedLosses (ds : List ℚ) : ℚ :=
  ds.foldl (fun a d => a + (if d < 0 then -d else 0)) 0

/-- One Wilder smoothing step of `RSI`:
`avg' = (avg*(p-1) + new) / p` for the gain and the loss component
(`gain = diff > 0 ? diff : 0`, `loss = diff < 0 ? -diff : 0`). -/
def rsiStep (p : ℕ) (gl : ℚ × ℚ) (d : ℚ) : ℚ × ℚ :=
  ((gl.1 * ((p : ℚ) - 1) + (if 0 < d then d else 0)) / p,
   (gl.2 * ((p : ℚ) - 1) + (if d < 0 then -d else 0)) / p)

/-- The final `(avgGain, avgLoss)` pair of `RSI(closes, p)`: seed averages
from the first `p` differences, then Wilder smoothing over the rest. -/
def rsiAvgs (closes : List ℚ) (p : ℕ) : ℚ × ℚ :=
  let ds := jsDiffs closes
  (ds.drop p).foldl (rsiStep p)
    (rsiSeedGains (ds.take p) / p, rsiSeedLosses (ds.take p) / p)

/-- Source `RSI(closes, p)` from `index.js`: `null` below length `p+1`; `100`
exactly when the smoothed average loss is zero; otherwise
`100 - 100/(1 + avgGain/avgLoss)`. -/
def RSI (closes : List ℚ) (p : ℕ) : Option ℚ :=
  if closes.length < p + 1 then none
  else
    let gl := rsiAvgs closes p
    if gl.2 = 0 then some 100
    else some (100 - 100 / (1 + gl.1 / gl.2))

/-- The record returned by `MACD`: the `prevHist` field is `null` in the
source when either the previous MACD value or the previous signal value is
unavailable. -/
structure MacdOut where
  macd : ℚ
  signal : ℚ
  hist : ℚ
  prevHist : Option ℚ
deriving DecidableEq, Repr

/-- One step of the `MACD` loop body: advance both EMAs and push their
difference onto the (reversed) series.  The source guards the fast-EMA
update with `i >= fast`, which always holds since the loop starts at
`max fast slow`. -/
def macdStep (kF kS : ℚ) (st : ℚ × ℚ × List ℚ) (c : ℚ) : ℚ × ℚ × List ℚ :=
  let f := c * kF + st.1 * (1 - kF)
  let s := c * kS + st.2.1 * (1 - kS)
  (f, s, (f - s) :: st.2.2)

/-- Source `MACD(closes, fast, slow, signal)` from `index.js`.  `null` below
length `slow + signal`; otherwise builds the MACD-line series from index
`max fast slow`, takes the signal line as `EMA(series, signal)`, and also
reports the previous histogram value when available.  Under the guard with
`fast ≤ slow` the series is nonempty and long enough for the signal EMA,
so the `getD 0` defaults are never taken. -/
def MACD (closes : List ℚ) (fast slow signal : ℕ) : Option MacdOut :=
  if closes.length < slow + signal then none
  else
    let kF : ℚ := 2 / (fast + 1)
    let kS : ℚ := 2 / (slow + 1)
    let emaF0 := (SMA (closes.take fast) fast).getD 0
    let emaS0 := (SMA (closes.take slow) slow).getD 0
    let r := (closes.drop (max fast slow)).foldl (macdStep kF kS) (emaF0, emaS0, [])
    let series := r.2.2.reverse
    let macdVal := series.getLast?.getD 0
    let signalVal := (EMA series signal).getD 0
    let prevSeries := series.dropLast
    let prevSignal := if prevSeries.length ≠ 0 then EMA prevSeries signal else none
    let prevMacd := prevSeries.getLast?
    let prevHist : Option ℚ :=
      match prevMacd, prevSignal with
      | some pm, some ps => some (pm - ps)
      | _, _ => none
    some ⟨macdVal, signalVal, macdVal - signalVal, prevHist⟩

/-- The record returned by `Bollinger`. -/
structure BBOut where
  mid : ℚ
  upper : ℚ
  lower : ℚ
deriving DecidableEq, Repr

/-- Source `Bollinger(closes, p, mult)` from `index.js`: `null` below length `p`;
otherwise mid = SMA, bands = mid ± mult·stddev.  Under the guard both
`SMA` and `stddev` are `some`, so the `getD 0` defaults are never taken. -/
def Bollinger (closes : List ℚ) (p : ℕ) (mult : ℚ) : Option BBOut :=
  if closes.length < p then none
  else
    let mid := (SMA closes p).getD 0
    let sd := (stddev closes p).getD 0
    some ⟨mid, mid + mult * sd, mid - mult * sd⟩

/-- The record returned by `Stoch`.  All four fields can be `undefined` or
`null` in JS for short-but-admitted inputs (e.g. `D` when the smoothed %K
series is shorter than `dPeriod`), hence `Option`. -/
structure StochOut where
  K : Option ℚ
  D : Option ℚ
  prevK : Option ℚ
  prevD : Option ℚ
deriving DecidableEq, Repr

/-- The inner `smooth(arr, p)` of `Stoch`: for each index `i ≥ p - 1` push
`SMA(arr.slice(0, i+1), p)` (an SMA of the last `p` of the first `i+1`
elements); `filterMap` both skips the early indices and unwraps the `SMA`,
which is `some` whenever `i + 1 ≥ p`. -/
def stochSmooth (arr : List ℚ) (p : ℕ) : List ℚ :=
  (List.range arr.length).filterMap fun i =>
    if i + 1 < p then none else SMA (arr.take (i + 1)) p

/-- The raw %K series of `Stoch`: for each `i ≥ kP - 1`,
`(close[i] − min(low, window)) / (max(high, window) − min(low, window)) · 100`
over the window `[i−kP+1, i]`.  With a flat window JS divides by zero and
gets `NaN`; Lean's total division yields a junk value there — no claim
below inspects the %K value of a flat window. -/
def stochRawK (highs lows closes : List ℚ) (kP : ℕ) : List ℚ :=
  (List.range closes.length).filterMap fun i =>
    if i + 1 < kP then none
    else
      let hh := listMax ((highs.take (i + 1)).drop (i + 1 - kP))
      let ll := listMin ((lows.take (i + 1)).drop (i + 1 - kP))
      some ((closes.getD i 0 - ll) / (hh - ll) * 100)

/-- Source `Stoch(highs, lows, closes, kP, dP, smoothK)` from `index.js`: `null`
below length `kP + dP`; otherwise smoothed %K and %D series with the
latest and previous values of each (`.at(-1)` / `.at(-2) ?? null`). -/
def Stoch (highs lows closes : List ℚ) (kP dP smoothK : ℕ) : Option StochOut :=
  if closes.length < kP + dP then none
  else
    let kArr := stochRawK highs lows closes kP
    let kSm := stochSmooth kArr smoothK
    let dArr := stochSmooth kSm dP
    some ⟨kSm.getLast?, dArr.getLast?, kSm.dropLast.getLast?, dArr.dropLast.getLast?⟩

/-- The typical-price series of `CCI`: `(high + low + close) / 3`
pointwise (the source indexes parallel arrays of equal length; `zipWith`
realizes that). -/
def cciTP (highs lows closes : List ℚ) : List ℚ :=
  List.zipWith (fun hl c => (hl + c) / 3) (List.zipWith (· + ·) highs lows) closes

/-- The mean absolute deviation of the last `p` typical prices around their
SMA, as computed by `CCI`. -/
def cciMeanDev (highs lows closes : List ℚ) (p : ℕ) : ℚ :=
  let tp := cciTP highs lows closes
  let sma := (SMA tp p).getD 0
  ((tp.drop (tp.length - p)).foldl (fun a v => a + |v - sma|) 0) / p

/-- Source `CCI(highs, lows, closes, p)` from `index.js`: `null` below length `p`;
otherwise `(lastTP − SMA(tp, p)) / (0.015 · meanDev)` — the source divides
unconditionally.  When `meanDev = 0` (so also `lastTP = SMA` for `p ≥ 1`)
the JS division is `0/0 = NaN`, still a number and not `null`; `JVal.nan`
models exactly that value. -/
def CCI (highs lows closes : List ℚ) (p : ℕ) : Option JVal :=
  if closes.length < p then none
  else
    let tp := cciTP highs lows closes
    let lastTP := tp.getLast?.getD 0
    let sma := (SMA tp p).getD 0
    let meanDev := cciMeanDev highs lows closes p
    if meanDev = 0 then some .nan
    else some (.num ((lastTP - sma) / (3 / 200 * meanDev)))

/-- The record returned by `ADX`. -/
structure AdxOut where
  adx : ℚ
  plusDI : ℚ
  minusDI : ℚ
deriving DecidableEq, Repr

/-- Wilder smoothing `wSmooth(arr, p)` inside `ADX`: first value is the sum
of the first `p` raw values, then `prev − prev/p + new` for each later
element. -/
def wSmooth (arr : List ℚ) (p : ℕ) : List ℚ :=
  let first := (arr.take p).foldl (· + ·) 0
  let r := (arr.drop p).foldl
    (fun (st : ℚ × List ℚ) a =>
      let nxt := st.1 - st.1 / p + a
      (nxt, nxt :: st.2))
    (first, [])
  first :: r.2.reverse

/-- The per-bar `+DM` series of `ADX` (`upMove > downMove && upMove > 0`). -/
def adxPlusDM (highs lows : List ℚ) : List ℚ :=
  List.zipWith
    (fun u d => if d < u ∧ 0 < u then u else 0)
    (List.zipWith (fun a b => b - a) highs highs.tail)
    (List.zipWith (fun a b => a - b) lows lows.tail)

/-- The per-bar `−DM` series of `ADX` (`downMove > upMove && downMove > 0`). -/
def adxMinusDM (highs lows : List ℚ) : List ℚ :=
  List.zipWith
    (fun u d => if u < d ∧ 0 < d then d else 0)
    (List.zipWith (fun a b => b - a) highs highs.tail)
    (List.zipWith (fun a b => a - b) lows lows.tail)

/-- The per-bar true-range series of `ADX`:
`max(high−low, |high−prevClose|, |low−prevClose|)` for each bar after the
first. -/
def adxTR (highs lows closes : List ℚ) : List ℚ :=
  List.zipWith
    (fun hl pc => max (hl.1 - hl.2) (max |hl.1 - pc| |hl.2 - pc|))
    (highs.tail.zip lows.tail) closes

/-- Source `ADX(highs, lows, closes, p)` from `index.js`: `null` below length
`p + 1`; otherwise Wilder-smoothed DM/TR, directional indices, DX, and an
ADX that seeds with the mean of the first `p` DX values and Wilder-smooths
the rest.  A zero smoothed TR makes the JS `+DI`/`−DI` division produce
`NaN`/`Infinity`; Lean's total division yields junk there — no claim below
inspects ADX values on such inputs. -/
def ADX (highs lows closes : List ℚ) (p : ℕ) : Option AdxOut :=
  if closes.length < p + 1 then none
  else
    let tr14 := wSmooth (adxTR highs lows closes) p
    let plusDM14 := wSmooth (adxPlusDM highs lows) p
    let minusDM14 := wSmooth (adxMinusDM highs lows) p
    let plusDI := List.zipWith (fun v t => 100 * (v / t)) plusDM14 tr14
    let minusDI := List.zipWith (fun v t => 100 * (v / t)) minusDM14 tr14
    let dx := List.zipWith (fun v m => 100 * |v - m| / (v + m)) plusDI minusDI
    let adx0 : ℚ := (dx.take p).foldl (· + ·) 0 / p
    let adx := (dx.drop p).foldl (fun a d => (a * ((p : ℚ) - 1) + d) / p) adx0
    some ⟨adx, plusDI.getLast?.getD 0, minusDI.getLast?.getD 0⟩

/-- The argument record of `decideSignal`: one indicator bundle plus the
latest close for one timeframe.  Absent indicators are `none`; the `cci`
slot is a `JVal` because `CCI` can hand the scorer a `NaN`. -/
structure IndSet where
  rsi : Option ℚ
  macd : Option MacdOut
  bb : Option BBOut
  adx : Option AdxOut
  stoch : Option StochOut
  cci : Option JVal
  ema50 : Option ℚ
  ema200 : Option ℚ
  close : ℚ
deriving DecidableEq, Repr

/-- JS `<` on possibly-undefined numbers: any comparison against
`undefined`/`null` is false. -/
def jsLt (a b : Option ℚ) : Bool :=
  match a, b with
  | some x, some y => decide (x < y)
  | _, _ => false

/-- The trend contribution of `decideSignal`: guarded by JS truthiness
`if (ema50 && ema200)`, so a missing EMA or an EMA exactly `0` skips the
block; inside, `ema50 > ema200` gives `+1` and everything else (including
exact equality) falls to the `else` branch, `−1`. -/
def trendSig (e50 e200 : Option ℚ) : ℚ :=
  match e50, e200 with
  | some a, some b =>
      if a ≠ 0 ∧ b ≠ 0 then (if b < a then 1 else -1) else 0
  | _, _ => 0

/-- The RSI contribution of `decideSignal`: `<30 → +1`, `>70 → −1`. -/
def rsiSig (r : Option ℚ) : ℚ :=
  match r with
  | some x => if x < 30 then 1 else if 70 < x then -1 else 0
  | none => 0

/-- The MACD contribution of `decideSignal`: `macd > signal` with a rising
(or absent-prior) histogram gives `+1`, the mirror gives `−1`. -/
def macdSig (m : Option MacdOut) : ℚ :=
  match m with
  | none => 0
  | some m =>
    match m.prevHist with
    | none =>
        if m.signal < m.macd then 1
        else if m.macd < m.signal then -1 else 0
    | some ph =>
        if m.signal < m.macd ∧ ph < m.hist then 1
        else if m.macd < m.signal ∧ m.hist < ph then -1 else 0

/-- The Bollinger contribution of `decideSignal`:
`pos = (close − lower)/(upper − lower)`, `pos ≤ 0.1 → +0.5`,
`pos ≥ 0.9 → −0.5`.  A zero-width band makes the JS division `±Infinity`
(sign of the numerator) or `NaN` at `close = lower`; the three-way split on
the numerator models exactly the comparisons those values satisfy. -/
def bbSig (bb : Option BBOut) (close : ℚ) : ℚ :=
  match bb with
  | none => 0
  | some b =>
    if b.upper - b.lower = 0 then
      if 0 < close - b.lower then -(1 / 2)
      else if close - b.lower < 0 then 1 / 2 else 0
    else
      let pos := (close - b.lower) / (b.upper - b.lower)
      if pos ≤ 1 / 10 then 1 / 2
      else if 9 / 10 ≤ pos then -(1 / 2) else 0

/-- The ADX contribution of `decideSignal`: only when `adx > 25`;
`+DI > −DI` gives `+0.5`, everything else (equality included) `−0.5`. -/
def adxSig (a : Option AdxOut) : ℚ :=
  match a with
  | none => 0
  | some a =>
    if 25 < a.adx then
      (if a.minusDI < a.plusDI then 1 / 2 else -(1 / 2))
    else 0

/-- The Stochastic contribution of `decideSignal`: needs both prior values
(`prevK != null && prevD != null`); a bullish cross below 20 gives `+0.5`,
a bearish cross above 80 gives `−0.5`.  `K`/`D` may still be `undefined`
(so every comparison on them is false, via `jsLt`). -/
def stochSig (st : Option StochOut) : ℚ :=
  match st with
  | none => 0
  | some st =>
    match st.prevK, st.prevD with
    | some pk, some pd =>
        if pk < pd ∧ jsLt st.D st.K ∧ jsLt st.K (some 20) then 1 / 2
        else if pd < pk ∧ jsLt st.K st.D ∧ jsLt (some 80) st.K then -(1 / 2)
        else 0
    | _, _ => 0

/-- The CCI contribution of `decideSignal`: `< −100 → +0.5`,
`> 100 → −0.5`.  A `NaN` CCI passes the `cci != null` guard but satisfies
neither comparison, contributing `0`. -/
def cciSig (c : Option JVal) : ℚ :=
  match c with
  | some (.num x) => if x < -100 then 1 / 2 else if 100 < x then -(1 / 2) else 0
  | _ => 0

/-- The accumulated total of `decideSignal` before rounding: the source
adds the seven contributions to `score` in textual order. -/
def signalScore (s : IndSet) : ℚ :=
  trendSig s.ema50 s.ema200 + rsiSig s.rsi + macdSig s.macd +
    bbSig s.bb s.close + adxSig s.adx + stochSig s.stoch + cciSig s.cci

/-- The seven individual contributions of `decideSignal`, in source
order. -/
def sigList (s : IndSet) : List ℚ :=
  [trendSig s.ema50 s.ema200, rsiSig s.rsi, macdSig s.macd,
   bbSig s.bb s.close, adxSig s.adx, stochSig s.stoch, cciSig s.cci]

/-- The result record of `decideSignal` (the `notes` list carries no
information the claims are about and is omitted). -/
structure SignalResult where
  score : ℚ
  verdict : String
deriving DecidableEq, Repr

/-- Source `decideSignal` from `index.js`: verdict from the unrounded total
(`≥ 1.5` long, `≤ −1.5` short, else neutral), reported score rounded to
2 decimals by `toFixed(2)`. -/
def decideSignal (s : IndSet) : SignalResult :=
  let score := signalScore s
  { score := roundFixed 2 score
    verdict :=
      if 3 / 2 ≤ score then "LEAN LONG"
      else if score ≤ -(3 / 2) then "LEAN SHORT"
      else "NEUTRAL / WAIT" }

/-- The indicator bundle `analyzeOneTF` computes for one timeframe's candle
data, with the source's fixed parameters. -/
def mkIndSet (highs lows closes : List ℚ) : IndSet :=
  { rsi := RSI closes 14
    macd := MACD closes 12 26 9
    bb := Bollinger closes 20 2
    adx := ADX highs lows closes 14
    stoch := Stoch highs lows closes 14 3 3
    cci := CCI highs lows closes 20
    ema50 := EMA closes 50
    ema200 := EMA closes 200
    close := closes.getLast?.getD 0 }

/-- One entry of the `TIMEFRAMES` configuration table. -/
structure Timeframe where
  label : String
  interval : ℕ
  weight : ℕ
deriving DecidableEq, Repr

/-- The `TIMEFRAMES` constant of `index.js`. -/
def TIMEFRAMES : List Timeframe :=
  [⟨"15m", 900, 1⟩, ⟨"1h", 3600, 2⟩, ⟨"1d", 86400, 3⟩]

/-- One element of the `perTF` list built by `analyzeAsset`: the
per-timeframe score together with that timeframe's weight (the label,
close and notes carry no weight in the aggregation). -/
structure TFResult where
  score : ℚ
  weight : ℕ
deriving DecidableEq, Repr

/-- Source `TIMEFRAMES.reduce((a, b) => a + b.weight, 0)` from `analyzeAsset`. -/
def totalWeight : ℚ :=
  TIMEFRAMES.foldl (fun a b => a + (b.weight : ℚ)) 0

/-- Source `perTF.reduce((a, r) => a + r.score * r.weight, 0) / totalW` from
`analyzeAsset`. -/
def weightedScoreOf (perTF : List TFResult) : ℚ :=
  perTF.foldl (fun a r => a + r.score * (r.weight : ℚ)) 0 / totalWeight

/-- Pair each configured timeframe with its per-timeframe score, as
`analyzeAsset` does by pushing `{...r, weight: tf.weight}` per entry. -/
def mkPerTF (scores : List ℚ) : List TFResult :=
  List.zipWith (fun tf s => ⟨s, tf.weight⟩) TIMEFRAMES scores

/-- The global-verdict selection of `analyzeAsset`: `>= 1.0` long,
`<= -1.0` short, else the neutral default. -/
def globalVerdictOf (ws : ℚ) : String :=
  if 1 ≤ ws then "GLOBAL: LEAN LONG"
  else if ws ≤ -1 then "GLOBAL: LEAN SHORT"
  else "NEUTRAL / WAIT"

/-- The fields of the analysis record written by `analyzeAsset` that the
deferred check reads back (identifier, frozen spot, 3-decimal-rounded
weighted score) plus the global verdict. -/
structure AnalysisRecord where
  assetId : ℤ
  spotAtAnalysis : Option ℚ
  weightedScore : ℚ
  verdict : String
deriving DecidableEq, Repr

/-- The analysis record `analyzeAsset` assembles: the live cache is read
once (`livePrices[assetId]?.price ?? null`) and frozen into the record, and
the weighted score is stored as `+weightedScore.toFixed(3)`. -/
def mkAnalysisRecord (assetId : ℤ) (scores : List ℚ) (spot : Option ℚ) :
    AnalysisRecord :=
  let ws := weightedScoreOf (mkPerTF scores)
  { assetId
    spotAtAnalysis := spot
    weightedScore := roundFixed 3 ws
    verdict := globalVerdictOf ws }

/-- The outcome record written by the deferred check in `analyzeAsset`. -/
structure OutcomeRecord where
  assetId : ℤ
  spotAtT : Option ℚ
  spotAtTplus1h : Option ℚ
  delta : Option ℚ
  predictedSign : ℤ
  wasCorrect : Option Bool
deriving DecidableEq, Repr

/-- The body of the `setTimeout` callback in `analyzeAsset`: re-read the
cache (`spotLater`), take `predSign = Math.sign(record.weightedScore)`,
`movedUp = spotLater > spot` when both spots are present (else `null`), and
`wasCorrect` accordingly (`null` for a neutral prediction or a missing
spot).  The function is total: an unavailable price yields an
indeterminate outcome, never a thrown error. -/
def computeOutcome (rec : AnalysisRecord) (spotLater : Option ℚ) :
    OutcomeRecord :=
  let spot := rec.spotAtAnalysis
  let predSign := qsign rec.weightedScore
  let movedUp : Option Bool :=
    match spot, spotLater with
    | some s, some l => some (decide (s < l))
    | _, _ => none
  let correct : Option Bool :=
    match movedUp with
    | none => none
    | some m =>
      if 0 < predSign then some m        -- movedUp === true
      else if predSign < 0 then some !m  -- movedUp === false
      else none                          -- neutral: no evaluation
  { assetId := rec.assetId
    spotAtT := spot
    spotAtTplus1h := spotLater
    delta :=
      match spot, spotLater with
      | some s, some l => some (roundFixed 6 (l - s))
      | _, _ => none
    predictedSign := predSign
    wasCorrect := correct }

/-- The two persisted events of one `analyzeAsset` run, in the order the
source produces them: `appendJsonLine(ANALYSES_FILE, record)` runs before
`setTimeout` even schedules the check, and the timer callback (which
appends the outcome) fires exactly once. -/
inductive AnalyzeEvent where
  | analysisRecorded (r : AnalysisRecord) : AnalyzeEvent
  | outcomeRecorded (o : OutcomeRecord) : AnalyzeEvent
deriving DecidableEq, Repr

/-- Is an event an analysis record? -/
def AnalyzeEvent.isAnalysis : AnalyzeEvent → Bool
  | .analysisRecorded _ => true
  | .outcomeRecorded _ => false

/-- Is an event an outcome record? -/
def AnalyzeEvent.isOutcome : AnalyzeEvent → Bool
  | .analysisRecorded _ => false
  | .outcomeRecorded _ => true

/-- The event trace of one `analyzeAsset` run for one asset: the analysis
is appended synchronously; the single deferred callback later reads the
then-current cache value `spotLater` and appends the one outcome. -/
def analyzeAssetTrace (rec : AnalysisRecord) (spotLater : Option ℚ) :
    List AnalyzeEvent :=
  [.analysisRecorded rec, .outcomeRecorded (computeOutcome rec spotLater)]

/-- One live tick as kept by the cache: `{ price, ts }` (the pair name
plays no role in the claims). -/
structure PriceTick where
  price : ℚ
  ts : ℤ
deriving DecidableEq, Repr

/-- The `livePrices` map: instrument id to last stored tick. -/
def PriceCache := ℤ → Option PriceTick

/-- The empty cache (`Object.create(null)`). -/
def emptyCache : PriceCache := fun _ => none

/-- One valid entry applied by the WSS message handler:
`livePrices[id] = { price, ts, pair }` — an unconditional overwrite. -/
def applyTick (c : PriceCache) (id : ℤ) (t : PriceTick) : PriceCache :=
  fun j => if j = id then some t else c j

/-- A finite sequence of valid ticks applied in arrival order. -/
def applyTicks (c : PriceCache) (l : List (ℤ × PriceTick)) : PriceCache :=
  l.foldl (fun c p => applyTick c p.1 p.2) c

/-- Twenty flat candles (high = low = close = 1): the failing input for
the CCI zero-mean-deviation claim. -/
def flatSeries : List ℚ :=
  [1, 1, 1, 1, 1, 1, 1, 1, 1, 1, 1, 1, 1, 1, 1, 1, 1, 1, 1, 1]

/-- C3: every indicator function returns an absent value exactly below its
declared minimum input length — `SMA`/`EMA`/`stddev`/`Bollinger`/`CCI` need
`p` samples, `RSI`/`ADX` need `p + 1`, `MACD` needs `slow + signal`,
`Stoch` needs `kP + dP`.  The functions are total, so no input throws. -/
theorem indicator_min_length_absent
    (highs lows closes arr : List ℚ) (mult : ℚ)
    (p fast slow signal kP dP smoothK : ℕ) :
    (SMA arr p = none ↔ arr.length < p) ∧
    (EMA arr p = none ↔ arr.length < p) ∧
    (stddev arr p = none ↔ arr.length < p) ∧
    (RSI closes p = none ↔ closes.length < p + 1) ∧
    (MACD closes fast slow signal = none ↔ closes.length < slow + signal) ∧
    (Bollinger closes p mult = none ↔ closes.length < p) ∧
    (Stoch highs lows closes kP dP smoothK = none ↔ closes.length < kP + dP) ∧
    (CCI highs lows closes p = none ↔ closes.length < p) ∧
    (ADX highs lows closes p = none ↔ closes.length < p + 1) := by
  refine ⟨?_, ?_, ?_, ?_, ?_, ?_, ?_, ?_, ?_⟩
  · unfold SMA; split <;> simp_all
  · unfold EMA; split <;> simp_all
  · unfold stddev; split <;> simp_all
  · unfold RSI
    split
    · simp_all
    · dsimp only
      split <;> simp_all
  · unfold MACD; split <;> simp_all
  · unfold Bollinger; split <;> simp_all
  · unfold Stoch; split <;> simp_all
  · unfold CCI
    split
    · simp_all
    · dsimp only
      split <;> simp_all
  · unfold ADX; split <;> simp_all

/-- C5: the scorer's verdict comes from the unrounded total — `≥ 1.5` is
LEAN LONG, `≤ −1.5` is LEAN SHORT, anything strictly between is the
neutral default — and the reported score is the accumulated total rounded
to 2 decimal places. -/
theorem scorer_verdict_thresholds_and_rounding (s : IndSet) :
    ((decideSignal s).verdict = "LEAN LONG" ↔ 3 / 2 ≤ signalScore s) ∧
    ((decideSignal s).verdict = "LEAN SHORT" ↔ signalScore s ≤ -(3 / 2)) ∧
    ((decideSignal s).verdict = "NEUTRAL / WAIT" ↔
      -(3 / 2) < signalScore s ∧ signalScore s < 3 / 2) ∧
    (decideSignal s).score = roundFixed 2 (signalScore s) := by
  have hSL : ("LEAN SHORT" : String) ≠ "LEAN LONG" := by decide
  have hNL : ("NEUTRAL / WAIT" : String) ≠ "LEAN LONG" := by decide
  have hLS : ("LEAN LONG" : String) ≠ "LEAN SHORT" := by decide
  have hNS : ("NEUTRAL / WAIT" : String) ≠ "LEAN SHORT" := by decide
  have hLN : ("LEAN LONG" : String) ≠ "NEUTRAL / WAIT" := by decide
  have hSN : ("LEAN SHORT" : String) ≠ "NEUTRAL / WAIT" := by decide
  have hv : (decideSignal s).verdict =
      (if 3 / 2 ≤ signalScore s then "LEAN LONG"
       else if signalScore s ≤ -(3 / 2) then "LEAN SHORT"
       else "NEUTRAL / WAIT") := rfl
  refine ⟨?_, ?_, ?_, rfl⟩ <;> rw [hv]
  · split_ifs with ha hb
    · exact iff_of_true rfl ha
    · exact iff_of_false hSL ha
    · exact iff_of_false hNL ha
  · split_ifs with ha hb
    · exact iff_of_false hLS (by intro h; linarith)
    · exact iff_of_true rfl hb
    · exact iff_of_false hNS hb
  · split_ifs with ha hb
    · exact iff_of_false hLN (fun h => absurd ha (not_le.mpr h.2))
    · exact iff_of_false hSN (fun h => absurd hb (not_le.mpr h.1))
    · exact iff_of_true rfl ⟨by linarith [not_le.mp hb], not_le.mp ha⟩

/-- C8: the scorer's total is the plain sum of the seven individual signal
contributions, so any evaluation order (any permutation of the seven
checks) yields the same total. -/
theorem score_order_invariant (s : IndSet) (l : List ℚ)
    (h : l.Perm (sigList s)) : l.sum = signalScore s := by
  rw [List.Perm.sum_eq h]
  simp [sigList, signalScore]
  ring

/-- Witness for C8 at a concrete indicator set and a reversed evaluation
order. -/
theorem score_order_invariant_witness :
    [cciSig none, stochSig none, adxSig none, bbSig none 0, macdSig none,
        rsiSig none, trendSig none none].Perm
      (sigList ⟨none, none, none, none, none, none, none, none, 0⟩) ∧
    [cciSig none, stochSig none, adxSig none, bbSig none 0, macdSig none,
        rsiSig none, trendSig none none].sum =
      signalScore ⟨none, none, none, none, none, none, none, none, 0⟩ :=
  ⟨by decide, score_order_invariant _ _ (by decide)⟩

/-- C10: in the scorer's trend signal, equal nonzero EMAs take the `else`
(down-trend) branch and contribute `−1`, while a zero EMA fails the JS
truthiness guard `if (ema50 && ema200)` and the trend signal contributes
`0`, exactly as when the EMA is absent. -/
theorem trend_equal_emas_and_zero_emas (a : ℚ) (e : Option ℚ) (ha : a ≠ 0) :
    trendSig (some a) (some a) = -1 ∧
    signalScore ⟨none, none, none, none, none, none, some a, some a, 0⟩ = -1 ∧
    trendSig (some 0) e = 0 ∧
    trendSig e (some 0) = 0 ∧
    trendSig (some 0) e = trendSig none e := by
  refine ⟨?_, ?_, ?_, ?_, ?_⟩
  · simp [trendSig, ha]
  · simp [signalScore, trendSig, rsiSig, macdSig, bbSig, adxSig, stochSig,
      cciSig, ha]
  · cases e <;> simp [trendSig]
  · cases e <;> simp [trendSig]
  · cases e <;> simp [trendSig]

/-- C1: the outcome's `predictedSign` is `Math.sign` of the recorded
(3-decimal-rounded) weighted score of its parent analysis, and
`wasCorrect` is `null` exactly when that sign is `0` or either spot price
is unavailable; otherwise it is the boolean
`(spotLater > spotAtAnalysis) == (predictedSign > 0)`. -/
theorem outcome_sign_and_indeterminacy (rec : AnalysisRecord)
    (spotLater : Option ℚ) :
    (computeOutcome rec spotLater).predictedSign = qsign rec.weightedScore ∧
    ((computeOutcome rec spotLater).wasCorrect = none ↔
      qsign rec.weightedScore = 0 ∨ rec.spotAtAnalysis = none ∨
        spotLater = none) ∧
    (∀ s l, rec.spotAtAnalysis = some s → spotLater = some l →
      qsign rec.weightedScore ≠ 0 →
      (computeOutcome rec spotLater).wasCorrect =
        some (decide ((s < l) ↔ 0 < qsign rec.weightedScore))) := by
  refine ⟨rfl, ?_, ?_⟩
  · unfold computeOutcome
    dsimp only
    cases hs : rec.spotAtAnalysis <;> cases hl : spotLater <;>
      simp only [] <;> try simp
    split_ifs with h1 h2 <;> simp <;> omega
  · intro s l hs hl hq
    unfold computeOutcome
    dsimp only
    rw [hs, hl]
    simp only []
    split_ifs with h1 h2
    · simp [h1]
    · have h0 : ¬ (0 < qsign rec.weightedScore) := by omega
      simp only [h0, iff_false]
      by_cases hsl : s < l
      · simp [hsl, not_le.mpr hsl]
      · simp [hsl, not_lt.mp hsl]
    · exact absurd (by omega) hq

/-- Witness for C1 with both spots present and a positive recorded
score. -/
theorem outcome_sign_and_indeterminacy_witness :
    (computeOutcome ⟨0, some 1, 1, "GLOBAL: LEAN LONG"⟩ (some 2)).predictedSign =
      qsign (1 : ℚ) ∧
    (computeOutcome ⟨0, some 1, 1, "GLOBAL: LEAN LONG"⟩ (some 2)).wasCorrect =
      some (decide (((1 : ℚ) < 2) ↔ 0 < qsign (1 : ℚ))) :=
  ⟨(outcome_sign_and_indeterminacy _ _).1,
   (outcome_sign_and_indeterminacy ⟨0, some 1, 1, "GLOBAL: LEAN LONG"⟩
      (some 2)).2.2 1 2 rfl rfl (by norm_num [qsign])⟩

/-- C2: for the configured timeframe list (weights 1, 2, 3), the global
weighted score equals `Σ(score·weight) / Σ(weight)` (exactly, hence within
`1e-9`), and the global verdict is LEAN LONG iff the weighted score is
`≥ 1.0` (inclusive), LEAN SHORT iff `≤ −1.0`, NEUTRAL otherwise. -/
theorem aggregator_weighted_score_and_verdict (a b c : ℚ) :
    |weightedScoreOf (mkPerTF [a, b, c]) -
        (a * 1 + b * 2 + c * 3) / (1 + 2 + 3)| ≤ 1 / 1000000000 ∧
    (globalVerdictOf (weightedScoreOf (mkPerTF [a, b, c])) =
        "GLOBAL: LEAN LONG" ↔ 1 ≤ weightedScoreOf (mkPerTF [a, b, c])) ∧
    (globalVerdictOf (weightedScoreOf (mkPerTF [a, b, c])) =
        "GLOBAL: LEAN SHORT" ↔ weightedScoreOf (mkPerTF [a, b, c]) ≤ -1) ∧
    (globalVerdictOf (weightedScoreOf (mkPerTF [a, b, c])) =
        "NEUTRAL / WAIT" ↔
      -1 < weightedScoreOf (mkPerTF [a, b, c]) ∧
        weightedScoreOf (mkPerTF [a, b, c]) < 1) := by
  have hLS : ("GLOBAL: LEAN LONG" : String) ≠ "GLOBAL: LEAN SHORT" := by decide
  have hSL : ("GLOBAL: LEAN SHORT" : String) ≠ "GLOBAL: LEAN LONG" := by decide
  have hNL : ("NEUTRAL / WAIT" : String) ≠ "GLOBAL: LEAN LONG" := by decide
  have hNS : ("NEUTRAL / WAIT" : String) ≠ "GLOBAL: LEAN SHORT" := by decide
  have hLN : ("GLOBAL: LEAN LONG" : String) ≠ "NEUTRAL / WAIT" := by decide
  have hSN : ("GLOBAL: LEAN SHORT" : String) ≠ "NEUTRAL / WAIT" := by decide
  have key : weightedScoreOf (mkPerTF [a, b, c]) =
      (a * 1 + b * 2 + c * 3) / (1 + 2 + 3) := by
    simp [weightedScoreOf, mkPerTF, TIMEFRAMES, totalWeight]
  refine ⟨by rw [key]; simp, ?_, ?_, ?_⟩
  · unfold globalVerdictOf
    split_ifs with ha hb
    · exact iff_of_true rfl ha
    · exact iff_of_false hSL ha
    · exact iff_of_false hNL ha
  · unfold globalVerdictOf
    split_ifs with ha hb
    · exact iff_of_false hLS (by intro h; linarith)
    · exact iff_of_true rfl hb
    · exact iff_of_false hNS hb
  · unfold globalVerdictOf
    split_ifs with ha hb
    · exact iff_of_false hLN (fun h => absurd ha (not_le.mpr h.2))
    · exact iff_of_false hSN (fun h => absurd hb (not_le.mpr h.1))
    · exact iff_of_true rfl ⟨by linarith [not_le.mp hb], not_le.mp ha⟩

/-- C7 counterexample: two valid ticks for instrument 0 arriving with the
later-timestamped tick first.  The cache ends holding the tick with
timestamp 1 — the last applied — not the tick with the latest timestamp
(timestamp 2) among those applied, so arrival order does matter. -/
theorem cache_latest_timestamp_counterexample :
    applyTicks emptyCache [((0 : ℤ), (⟨1, 2⟩ : PriceTick)), (0, ⟨2, 1⟩)] 0 =
      some ⟨2, 1⟩ ∧
    (⟨1, 2⟩ : PriceTick) ∈ [(⟨1, 2⟩ : PriceTick), ⟨2, 1⟩] ∧
    (⟨1, 2⟩ : PriceTick).ts ≤ (⟨1, 2⟩ : PriceTick).ts ∧
    (⟨2, 1⟩ : PriceTick).ts ≤ (⟨1, 2⟩ : PriceTick).ts ∧
    applyTicks emptyCache [((0 : ℤ), (⟨1, 2⟩ : PriceTick)), (0, ⟨2, 1⟩)] 0 ≠
      some ⟨1, 2⟩ := by
  refine ⟨rfl, by simp, by simp, by norm_num, ?_⟩
  show some (⟨2, 1⟩ : PriceTick) ≠ some ⟨1, 2⟩
  norm_num [PriceTick.mk.injEq]

/-- C7 amended: the cache applies last-write-wins by application order —
after a nonempty sequence of valid ticks for one instrument, it holds
exactly the tick applied last (which is the latest-timestamp tick only
when ticks arrive in timestamp order). -/
theorem cache_last_write_wins (c : PriceCache) (id : ℤ)
    (l : List PriceTick) (h : l ≠ []) :
    applyTicks c (l.map fun t => (id, t)) id = l.getLast? := by
  induction l generalizing c with
  | nil => exact absurd rfl h
  | cons t ts ih =>
    cases ts with
    | nil => simp [applyTicks, applyTick]
    | cons u us =>
      have step : applyTicks c ((t :: u :: us).map fun x => (id, x)) id =
          applyTicks (applyTick c id t) ((u :: us).map fun x => (id, x)) id :=
        rfl
      rw [step, ih (applyTick c id t) (by simp), List.getLast?_cons_cons]

/-- Witness for C7's amended statement on a concrete two-tick sequence. -/
theorem cache_last_write_wins_witness :
    ([⟨1, 2⟩, ⟨2, 1⟩] : List PriceTick) ≠ [] ∧
    applyTicks emptyCache
        (([⟨1, 2⟩, ⟨2, 1⟩] : List PriceTick).map fun t => ((0 : ℤ), t)) 0 =
      ([⟨1, 2⟩, ⟨2, 1⟩] : List PriceTick).getLast? :=
  ⟨by simp, cache_last_write_wins emptyCache 0 _ (by simp)⟩

/-- C9: in the event trace of one `analyzeAsset` run, the analysis record
strictly precedes the outcome record, exactly one outcome is recorded, and
a missing spot price (at analysis or at check time) yields an
indeterminate outcome — `computeOutcome` is total, so the deferred check
never aborts. -/
theorem outcome_ordering_once_and_total (rec : AnalysisRecord)
    (spotLater : Option ℚ) :
    (analyzeAssetTrace rec spotLater).countP AnalyzeEvent.isOutcome = 1 ∧
    (∀ (i j : ℕ) (hi : i < (analyzeAssetTrace rec spotLater).length)
        (hj : j < (analyzeAssetTrace rec spotLater).length),
      ((analyzeAssetTrace rec spotLater).get ⟨i, hi⟩).isOutcome = true →
      ((analyzeAssetTrace rec spotLater).get ⟨j, hj⟩).isAnalysis = true →
      j < i) ∧
    (spotLater = none → (computeOutcome rec spotLater).wasCorrect = none) ∧
    (rec.spotAtAnalysis = none →
      (computeOutcome rec spotLater).wasCorrect = none) := by
  refine ⟨by simp [analyzeAssetTrace, List.countP_cons, AnalyzeEvent.isOutcome],
    ?_, ?_, ?_⟩
  · intro i j hi hj hiO hjA
    have hi2 : i < 2 := by simpa [analyzeAssetTrace] using hi
    have hj2 : j < 2 := by simpa [analyzeAssetTrace] using hj
    interval_cases i <;> interval_cases j <;>
      simp_all [analyzeAssetTrace, AnalyzeEvent.isOutcome, AnalyzeEvent.isAnalysis]
  · intro h
    subst h
    cases hs : rec.spotAtAnalysis <;> simp [computeOutcome, hs]
  · intro h
    cases hl : spotLater <;> simp [computeOutcome, h]

/-- Witness for C9 with an empty cache at both times. -/
theorem outcome_ordering_once_and_total_witness :
    (analyzeAssetTrace ⟨0, none, 0, "NEUTRAL / WAIT"⟩ none).countP
        AnalyzeEvent.isOutcome = 1 ∧
    (computeOutcome ⟨0, none, 0, "NEUTRAL / WAIT"⟩ none).wasCorrect = none :=
  ⟨(outcome_ordering_once_and_total _ none).1,
   (outcome_ordering_once_and_total ⟨0, none, 0, "NEUTRAL / WAIT"⟩ none).2.2.1 rfl⟩

/-- Witness for C10 at `EMA50 = EMA200 = 7`. -/
theorem trend_equal_emas_and_zero_emas_witness :
    (7 : ℚ) ≠ 0 ∧
    (trendSig (some 7) (some 7) = -1 ∧
     signalScore ⟨none, none, none, none, none, none, some 7, some 7, 0⟩ = -1 ∧
     trendSig (some 0) none = 0 ∧
     trendSig none (some 0) = 0 ∧
     trendSig (some 0) none = trendSig none none) :=
  ⟨by norm_num, trend_equal_emas_and_zero_emas 7 none (by norm_num)⟩

/-- A fold that only ever adds the nonnegative quantity
`if 0 ≤ d then d else 0` stays nonnegative. -/
theorem rsiSeedGains_aux :
    ∀ (l : List ℚ) (a : ℚ), 0 ≤ a →
      0 ≤ l.foldl (fun a d => a + (if 0 ≤ d then d else 0)) a := by
  intro l
  induction l with
  | nil => intro a ha; simpa using ha
  | cons d t ih =>
    intro a ha
    rw [List.foldl_cons]
    refine ih _ (add_nonneg ha ?_)
    split_ifs with h
    · exact h
    · exact le_refl 0

/-- A fold that only ever adds the nonnegative quantity
`if d < 0 then -d else 0` stays nonnegative. -/
theorem rsiSeedLosses_aux :
    ∀ (l : List ℚ) (a : ℚ), 0 ≤ a →
      0 ≤ l.foldl (fun a d => a + (if d < 0 then -d else 0)) a := by
  intro l
  induction l with
  | nil => intro a ha; simpa using ha
  | cons d t ih =>
    intro a ha
    rw [List.foldl_cons]
    refine ih _ (add_nonneg ha ?_)
    split_ifs with h
    · linarith
    · exact le_refl 0

/-- The seed gains of `RSI` are nonnegative. -/
theorem rsiSeedGains_nonneg (l : List ℚ) : 0 ≤ rsiSeedGains l :=
  rsiSeedGains_aux l 0 (le_refl 0)

/-- The seed losses of `RSI` are nonnegative. -/
theorem rsiSeedLosses_nonneg (l : List ℚ) : 0 ≤ rsiSeedLosses l :=
  rsiSeedLosses_aux l 0 (le_refl 0)

/-- Wilder smoothing (`rsiStep`, for `p ≥ 1`) preserves nonnegativity of
both running averages. -/
theorem rsiStep_foldl_nonneg (p : ℕ) (hp : 1 ≤ p) :
    ∀ (l : List ℚ) (gl : ℚ × ℚ), 0 ≤ gl.1 → 0 ≤ gl.2 →
      0 ≤ (l.foldl (rsiStep p) gl).1 ∧ 0 ≤ (l.foldl (rsiStep p) gl).2 := by
  have hp1 : (0 : ℚ) ≤ (p : ℚ) - 1 := by
    rw [sub_nonneg]
    exact_mod_cast hp
  intro l
  induction l with
  | nil => intro gl h1 h2; exact ⟨h1, h2⟩
  | cons d t ih =>
    intro gl h1 h2
    rw [List.foldl_cons]
    refine ih _ ?_ ?_
    · unfold rsiStep
      dsimp only
      refine div_nonneg (add_nonneg (mul_nonneg h1 hp1) ?_) (by positivity)
      split_ifs with h
      · exact le_of_lt h
      · exact le_refl 0
    · unfold rsiStep
      dsimp only
      refine div_nonneg (add_nonneg (mul_nonneg h2 hp1) ?_) (by positivity)
      split_ifs with h
      · linarith
      · exact le_refl 0

/-- Both smoothed averages of `RSI` are nonnegative (for `p ≥ 1`). -/
theorem rsiAvgs_nonneg (closes : List ℚ) (p : ℕ) (hp : 1 ≤ p) :
    0 ≤ (rsiAvgs closes p).1 ∧ 0 ≤ (rsiAvgs closes p).2 := by
  unfold rsiAvgs
  dsimp only
  exact rsiStep_foldl_nonneg p hp _ _
    (div_nonneg (rsiSeedGains_nonneg _) (by positivity))
    (div_nonneg (rsiSeedLosses_nonneg _) (by positivity))

/-- C6: for any close series of length at least `p + 1` (with `p ≥ 1`, as
at the call site `p = 14`), `RSI` is defined and lies within `[0, 100]`,
and a zero Wilder-smoothed average loss yields exactly `100`. -/
theorem rsi_bounds (closes : List ℚ) (p : ℕ) (hp : 1 ≤ p)
    (hl : p + 1 ≤ closes.length) :
    (∃ r, RSI closes p = some r ∧ 0 ≤ r ∧ r ≤ 100) ∧
    ((rsiAvgs closes p).2 = 0 → RSI closes p = some 100) := by
  have hguard : ¬ closes.length < p + 1 := by omega
  have havgs := rsiAvgs_nonneg closes p hp
  by_cases hz : (rsiAvgs closes p).2 = 0
  · exact ⟨⟨100, by simp [RSI, hguard, hz], by norm_num, by norm_num⟩,
      fun _ => by simp [RSI, hguard, hz]⟩
  · have hpos : 0 < (rsiAvgs closes p).2 := lt_of_le_of_ne havgs.2 (Ne.symm hz)
    have hrs : 0 ≤ (rsiAvgs closes p).1 / (rsiAvgs closes p).2 :=
      div_nonneg havgs.1 (le_of_lt hpos)
    have h1p : (1 : ℚ) ≤ 1 + (rsiAvgs closes p).1 / (rsiAvgs closes p).2 := by
      linarith
    have hdivpos : 0 < 100 / (1 + (rsiAvgs closes p).1 / (rsiAvgs closes p).2) := by
      positivity
    have hdivle : 100 / (1 + (rsiAvgs closes p).1 / (rsiAvgs closes p).2) ≤ 100 :=
      div_le_self (by norm_num) h1p
    refine ⟨⟨100 - 100 / (1 + (rsiAvgs closes p).1 / (rsiAvgs closes p).2),
      by simp [RSI, hguard, hz], by linarith, by linarith⟩,
      fun h => absurd h hz⟩

/-- Witness for C6 on a two-point rising series with period 1 (average
loss zero, so RSI is exactly 100). -/
theorem rsi_bounds_witness :
    1 ≤ 1 ∧ 1 + 1 ≤ ([1, 2] : List ℚ).length ∧
    ((∃ r, RSI [1, 2] 1 = some r ∧ 0 ≤ r ∧ r ≤ 100) ∧
     ((rsiAvgs [1, 2] 1).2 = 0 → RSI [1, 2] 1 = some 100)) :=
  ⟨le_refl 1, by simp, rsi_bounds [1, 2] 1 (le_refl 1) (by simp)⟩

/-- C4 (code bug evidence): at a flat 20-candle input the mean absolute
deviation is exactly zero, yet `CCI` still reaches the division — the
source computes `(lastTP − sma) / (0.015 · meanDev) = 0/0`, which is `NaN`
in JS, and returns that as a (non-null) number instead of the absent value
the specification requires.  (`decideSignal` then treats it as present,
since `NaN != null`, and it silently contributes 0.) -/
theorem cci_flat_divides_by_zero :
    cciMeanDev flatSeries flatSeries flatSeries 20 = 0 ∧
    CCI flatSeries flatSeries flatSeries 20 = some JVal.nan ∧
    CCI flatSeries flatSeries flatSeries 20 ≠ none := by
  have hmd : cciMeanDev flatSeries flatSeries flatSeries 20 = 0 := by
    norm_num [cciMeanDev, cciTP, SMA, flatSeries]
  have hlen : flatSeries.length = 20 := rfl
  refine ⟨hmd, ?_, ?_⟩
  · rw [CCI]
    simp [hlen, hmd]
  · rw [CCI]
    simp [hlen, hmd]
